import Mathlib

/-!
# TokenGo core — verification of the wire protocol, relay registry, OHTTP
# encapsulation and relay/exit stream handlers

A shallow embedding of the Go sources of the TokenGo repository
(`internal/protocol/messages.go`, `internal/relay/registry.go`,
`internal/crypto/keys.go`, the relay QUIC server and the exit tunnel
client), together with proofs of the specification's testable properties.
Bytes are modelled as `Nat` (values below 256 where the source reads from a
byte stream), Go byte slices and strings as `List Nat`, machine-integer
casts as explicit `% 2 ^ w`, and fallible operations as `Except`/`Option`.
-/

set_option maxHeartbeats 1000000

namespace TokenGo

/-! ## Wire protocol — `internal/protocol/messages.go`

`Message.Encode` builds `[Type(1)] [TargetLen(2, BE)] [Target] [PayloadLen(4, BE)]
[Payload]`; `Decode` reads the same layout from a stream, enforcing
`TargetLen ≤ 1024` and `PayloadLen ≤ 16 MiB` before allocating. -/

/-- Wire message: `Type(1) || TargetLen(2) || Target || PayloadLen(4) || Payload`.
Go's `Target string` and `Payload []byte` are both byte sequences. -/
structure Message where
  type : Nat
  target : List Nat
  payload : List Nat
  deriving DecidableEq, Repr

/-- `maxTargetSize` from `Decode` (1 KiB). -/
def maxTargetSize : Nat := 1024

/-- `maxPayloadSize` from `Decode` (16 MiB). -/
def maxPayloadSize : Nat := 16 * 1024 * 1024

/-- `binary.BigEndian.PutUint16`: the argument has already been reduced
mod 2^16 by the `uint16(...)` cast at the call site. -/
def putUint16 (n : Nat) : List Nat := [n / 256 % 256, n % 256]

/-- `binary.BigEndian.PutUint32`: argument already reduced mod 2^32. -/
def putUint32 (n : Nat) : List Nat :=
  [n / 16777216 % 256, n / 65536 % 256, n / 256 % 256, n % 256]

/-- `Message.Encode`: the length fields are the Go casts `uint16(len(target))`
and `uint32(len(payload))` — reductions mod 2^16 / 2^32 — while the full
target and payload bytes are copied regardless of length. No size cap is
checked. -/
def Message.encode (m : Message) : List Nat :=
  [m.type % 256] ++ putUint16 (m.target.length % 65536) ++ m.target
    ++ putUint32 (m.payload.length % 4294967296) ++ m.payload

/-- The distinct failure exits of `Decode` (each a distinct `fmt.Errorf` site). -/
inductive DecodeErr where
  | headerRead
  | targetTooLong
  | targetRead
  | payloadLenRead
  | payloadTooLong
  | payloadRead
  deriving DecidableEq, Repr

/-- `io.ReadFull` on a byte stream: succeed with exactly `n` bytes and the
rest of the stream, or fail when the stream is shorter. -/
def readFull (n : Nat) (bs : List Nat) : Option (List Nat × List Nat) :=
  if bs.length < n then none else some (bs.take n, bs.drop n)

/-- `protocol.Decode`: read the 3-byte header, check the target cap, read the
target, read the 4-byte payload length, check the payload cap, read the
payload.  Returns the decoded message and the unconsumed rest of the stream. -/
def Decode (input : List Nat) : Except DecodeErr (Message × List Nat) :=
  match input with
  | t :: h1 :: h2 :: rest =>
    let targetLen := h1 * 256 + h2
    if targetLen > maxTargetSize then .error .targetTooLong
    else
      match readFull targetLen rest with
      | none => .error .targetRead
      | some (target, r2) =>
        match r2 with
        | p1 :: p2 :: p3 :: p4 :: r3 =>
          let payloadLen := ((p1 * 256 + p2) * 256 + p3) * 256 + p4
          if payloadLen > maxPayloadSize then .error .payloadTooLong
          else
            match readFull payloadLen r3 with
            | none => .error .payloadRead
            | some (payload, r4) => .ok (⟨t, target, payload⟩, r4)
        | _ => .error .payloadLenRead
  | _ => .error .headerRead

/-! ### Wire protocol lemmas -/

theorem readFull_append (l r : List Nat) : readFull l.length (l ++ r) = some (l, r) := by
  simp [readFull, List.take_left, List.drop_left]

theorem readFull_eq_some {n : Nat} {bs out rest : List Nat}
    (h : readFull n bs = some (out, rest)) :
    out = bs.take n ∧ rest = bs.drop n ∧ out.length = n := by
  unfold readFull at h
  split at h
  · exact absurd h (by simp)
  · rename_i hlen
    obtain ⟨h1, h2⟩ := Prod.mk.injEq .. ▸ Option.some.injEq .. ▸ h
    refine ⟨h1.symm, h2.symm, ?_⟩
    subst h1
    simp [List.length_take]
    omega

/-- Inversion of a successful `Decode` on an input with at least the header:
the decoded target has exactly the length of the header field, and both caps
hold. -/
theorem Decode_ok_inversion {t h1 h2 : Nat} {rest : List Nat} {m : Message}
    {r : List Nat} (h : Decode (t :: h1 :: h2 :: rest) = .ok (m, r)) :
    m.type = t ∧ m.target.length = h1 * 256 + h2 ∧
      m.target.length ≤ maxTargetSize ∧ m.payload.length ≤ maxPayloadSize := by
  simp only [Decode] at h
  split at h
  · exact absurd h (by simp)
  · rename_i hcap
    split at h
    · exact absurd h (by simp)
    · rename_i target r2 hread
      split at h
      · rename_i p1 p2 p3 p4 r3
        split at h
        · exact absurd h (by simp)
        · rename_i hpcap
          split at h
          · exact absurd h (by simp)
          · rename_i payload r4 hread2
            obtain ⟨hm, hr⟩ := Prod.mk.injEq .. ▸ Except.ok.injEq .. ▸ h
            obtain ⟨-, -, hlen⟩ := readFull_eq_some hread
            obtain ⟨-, -, hlen2⟩ := readFull_eq_some hread2
            subst hm
            refine ⟨rfl, by simpa using hlen, ?_, ?_⟩
            · simp only at hlen ⊢
              omega
            · simp only at hlen2 ⊢
              omega
      · exact absurd h (by simp)

/-- A successful `Decode` never starts with fewer than three input bytes. -/
theorem Decode_ok_shape {input : List Nat} {m : Message} {r : List Nat}
    (h : Decode input = .ok (m, r)) :
    ∃ t h1 h2 rest, input = t :: h1 :: h2 :: rest := by
  match input with
  | t :: h1 :: h2 :: rest => exact ⟨t, h1, h2, rest, rfl⟩
  | [] => exact absurd h (by simp [Decode])
  | [t] => exact absurd h (by simp [Decode])
  | [t, h1] => exact absurd h (by simp [Decode])

/-- C5 (claim): every successful decode satisfies both size caps, a target
header field above 1024 is refused, and a payload length field above 16 MiB
is refused after the target was read. -/
theorem c5_decode_enforces_caps :
    (∀ input m rest, Decode input = .ok (m, rest) →
      m.target.length ≤ maxTargetSize ∧ m.payload.length ≤ maxPayloadSize)
    ∧ (∀ t h1 h2 rest, h1 * 256 + h2 > maxTargetSize →
      Decode (t :: h1 :: h2 :: rest) = .error .targetTooLong)
    ∧ (∀ t h1 h2 target p1 p2 p3 p4 r3,
      target.length = h1 * 256 + h2 →
      h1 * 256 + h2 ≤ maxTargetSize →
      ((p1 * 256 + p2) * 256 + p3) * 256 + p4 > maxPayloadSize →
      Decode (t :: h1 :: h2 :: (target ++ p1 :: p2 :: p3 :: p4 :: r3)) =
        .error .payloadTooLong) := by
  refine ⟨?_, ?_, ?_⟩
  · intro input m rest h
    obtain ⟨t, h1, h2, rest2, hshape⟩ := Decode_ok_shape h
    subst hshape
    obtain ⟨-, -, hc1, hc2⟩ := Decode_ok_inversion h
    exact ⟨hc1, hc2⟩
  · intro t h1 h2 rest hcap
    simp [Decode, hcap]
  · intro t h1 h2 target p1 p2 p3 p4 r3 hlen hcap hpcap
    have hread : readFull (h1 * 256 + h2) (target ++ p1 :: p2 :: p3 :: p4 :: r3) =
        some (target, p1 :: p2 :: p3 :: p4 :: r3) := by
      rw [← hlen]; exact readFull_append _ _
    have hnotcap : ¬ (h1 * 256 + h2 > maxTargetSize) := by omega
    simp [Decode, hnotcap, hread, hpcap]

/-- C5 witness: a concrete 8-byte frame decodes successfully and lies within
both caps. -/
theorem c5_witness :
    ([97] : List Nat).length ≤ maxTargetSize ∧
      ([] : List Nat).length ≤ maxPayloadSize :=
  c5_decode_enforces_caps.1 [1, 0, 1, 97, 0, 0, 0, 0] ⟨1, [97], []⟩ [] (by rfl)

/-! ## Relay registry — `internal/relay/registry.go`

The registry is a lock-protected map `pubKeyHash → ExitEntry`; every lock-
serialized operation is one state transition here.  A `quic.Connection` is
identified by an opaque token (`Nat`), since `RemoveIfMatch` compares
connections by identity.  Calls to `conn.CloseWithError` are observable
effects, recorded in a `closed` log as (connection, reason) pairs.  Go map
updates are determinized as prepend-after-erase on an association list;
lookups read the first binding of a key. -/

structure ExitEntry where
  pubKeyHash : String
  conn : Nat
  registeredAt : Nat
  lastHeartbeat : Nat
  deriving DecidableEq, Repr

structure RegState where
  entries : List (String × ExitEntry)
  closed : List (Nat × String)
  deriving DecidableEq, Repr

/-- Map read `r.entries[pubKeyHash]`. -/
def RegState.lookup (s : RegState) (hash : String) : Option ExitEntry :=
  (s.entries.find? (fun p => p.1 == hash)).map Prod.snd

/-- `Registry.Register`: close any displaced old connection with reason
"replaced by new connection", then overwrite the entry with
`registeredAt = lastHeartbeat = now`. -/
def RegState.register (s : RegState) (hash : String) (conn : Nat) (now : Nat) : RegState :=
  let closedNow :=
    match s.lookup hash with
    | some old => s.closed ++ [(old.conn, "replaced by new connection")]
    | none => s.closed
  { entries := (hash, ⟨hash, conn, now, now⟩) :: s.entries.filter (fun p => !(p.1 == hash)),
    closed := closedNow }

/-- `Registry.RemoveIfMatch`: delete only when the stored connection is
identically the passed-in one; report whether a deletion occurred. -/
def RegState.removeIfMatch (s : RegState) (hash : String) (conn : Nat) : Bool × RegState :=
  match s.lookup hash with
  | some entry =>
    if entry.conn = conn then
      (true, { s with entries := s.entries.filter (fun p => !(p.1 == hash)) })
    else (false, s)
  | none => (false, s)

/-- `Registry.UpdateHeartbeat`: touch `lastHeartbeat` of an existing entry;
a missing hash is a silent no-op. -/
def RegState.updateHeartbeat (s : RegState) (hash : String) (now : Nat) : RegState :=
  { s with entries := s.entries.map (fun p =>
      if p.1 == hash then (p.1, { p.2 with lastHeartbeat := now }) else p) }

/-- `Registry.cleanup`: close (reason "heartbeat timeout") and delete every
entry with `now - lastHeartbeat > timeout`. -/
def RegState.cleanup (s : RegState) (ttl now : Nat) : RegState :=
  { entries := s.entries.filter (fun p => !(decide (now - p.2.lastHeartbeat > ttl))),
    closed := s.closed ++
      (s.entries.filter (fun p => decide (now - p.2.lastHeartbeat > ttl))).map
        (fun p => (p.2.conn, "heartbeat timeout")) }

/-- The Go map invariant: one binding per key. -/
def RegState.keysNodup (s : RegState) : Prop := (s.entries.map Prod.fst).Nodup

/-- A sequence of `Register` calls for one hash, serialized by the registry
lock; each element carries (connection, time of the call). -/
def runRegisters (s : RegState) (hash : String) (regs : List (Nat × Nat)) : RegState :=
  regs.foldl (fun st r => st.register hash r.1 r.2) s

/-! ### Registry lemmas -/

theorem lookup_register (s : RegState) (hash : String) (conn now : Nat) :
    (s.register hash conn now).lookup hash = some ⟨hash, conn, now, now⟩ := by
  simp [RegState.register, RegState.lookup, List.find?]

theorem closed_mono_register (s : RegState) (hash : String) (conn now : Nat)
    {x : Nat × String} (h : x ∈ s.closed) : x ∈ (s.register hash conn now).closed := by
  simp only [RegState.register]
  split
  · exact List.mem_append_left _ h
  · exact h

theorem register_closes (s : RegState) (hash : String) (conn now : Nat) {e : ExitEntry}
    (h : s.lookup hash = some e) :
    (e.conn, "replaced by new connection") ∈ (s.register hash conn now).closed := by
  simp only [RegState.register, h]
  exact List.mem_append_right _ (by simp)

theorem closed_mono_run (s : RegState) (hash : String) (regs : List (Nat × Nat))
    {x : Nat × String} (h : x ∈ s.closed) : x ∈ (runRegisters s hash regs).closed := by
  induction regs generalizing s with
  | nil => exact h
  | cons r rest ih => exact ih _ (closed_mono_register s hash r.1 r.2 h)

theorem lookup_run (hash : String) :
    ∀ (regs : List (Nat × Nat)) (s : RegState) (h : regs ≠ []),
      (runRegisters s hash regs).lookup hash =
        some ⟨hash, (regs.getLast h).1, (regs.getLast h).2, (regs.getLast h).2⟩ := by
  intro regs
  induction regs with
  | nil => intro s h; exact absurd rfl h
  | cons r rest ih =>
    intro s h
    cases rest with
    | nil => simpa [runRegisters] using lookup_register s hash r.1 r.2
    | cons r2 rs =>
      have hne : r2 :: rs ≠ [] := by simp
      rw [show runRegisters s hash (r :: r2 :: rs) =
          runRegisters (s.register hash r.1 r.2) hash (r2 :: rs) from rfl,
        List.getLast_cons hne]
      exact ih (s.register hash r.1 r.2) hne

theorem countP_register (s : RegState) (hash : String) (conn now : Nat) :
    (s.register hash conn now).entries.countP (fun p => p.1 == hash) = 1 := by
  simp only [RegState.register]
  rw [List.countP_cons_of_pos _ _ (by simp)]
  have hz : List.countP (fun p => p.1 == hash)
      (s.entries.filter (fun p => !(p.1 == hash))) = 0 := by
    rw [List.countP_eq_zero]
    intro a ha
    have := List.of_mem_filter ha
    simpa using this
  omega

theorem countP_run (hash : String) :
    ∀ (regs : List (Nat × Nat)) (s : RegState), regs ≠ [] →
      (runRegisters s hash regs).entries.countP (fun p => p.1 == hash) = 1 := by
  intro regs
  induction regs with
  | nil => intro s h; exact absurd rfl h
  | cons r rest ih =>
    intro s _
    cases rest with
    | nil => simpa [runRegisters] using countP_register s hash r.1 r.2
    | cons r2 rs =>
      exact ih (s.register hash r.1 r.2) (by simp)

theorem closed_run (hash : String) :
    ∀ (regs : List (Nat × Nat)) (s : RegState) (c : Nat),
      c ∈ regs.dropLast.map Prod.fst →
      c ∈ (runRegisters s hash regs).closed.map Prod.fst := by
  intro regs
  induction regs with
  | nil => intro s c hc; simp at hc
  | cons r rest ih =>
    intro s c hc
    cases rest with
    | nil => simp at hc
    | cons r2 rs =>
      rw [List.dropLast_cons_of_ne_nil (by simp), List.map_cons] at hc
      rcases List.mem_cons.mp hc with hc1 | hc2
      · subst hc1
        have h1 : (s.register hash r.1 r.2).lookup hash = some ⟨hash, r.1, r.2, r.2⟩ :=
          lookup_register s hash r.1 r.2
        have h2 := register_closes (s.register hash r.1 r.2) hash r2.1 r2.2 h1
        have h3 : runRegisters s hash (r :: r2 :: rs) =
            runRegisters ((s.register hash r.1 r.2).register hash r2.1 r2.2) hash rs := rfl
        rw [h3]
        exact List.mem_map_of_mem Prod.fst (closed_mono_run _ hash rs h2)
      · exact ih (s.register hash r.1 r.2) c hc2

/-- C3 (claim): after any lock-serialized sequence of `Register` calls for
one hash, the map holds exactly one binding for that hash, `Lookup` returns
the connection of the last call, and the connection of every earlier call
has been closed. -/
theorem c3_register_last_wins (s : RegState) (hash : String)
    (regs : List (Nat × Nat)) (h : regs ≠ []) :
    ((runRegisters s hash regs).lookup hash).map ExitEntry.conn =
        some (regs.getLast h).1
    ∧ (runRegisters s hash regs).entries.countP (fun p => p.1 == hash) = 1
    ∧ (∀ c, c ∈ regs.dropLast.map Prod.fst →
        c ∈ (runRegisters s hash regs).closed.map Prod.fst) := by
  exact ⟨by rw [lookup_run hash regs s h]; rfl,
    countP_run hash regs s h,
    fun c hc => closed_run hash regs s c hc⟩

/-- C3 witness: two concrete registrations for the same hash — the second
connection is looked up, one binding remains, the first connection was
closed. -/
theorem c3_witness :
    ((runRegisters ⟨[], []⟩ "h" [(1, 10), (2, 20)]).lookup "h").map ExitEntry.conn =
        some 2
    ∧ (runRegisters ⟨[], []⟩ "h" [(1, 10), (2, 20)]).entries.countP
        (fun p => p.1 == "h") = 1
    ∧ (∀ c, c ∈ ([(1, 10), (2, 20)] : List (Nat × Nat)).dropLast.map Prod.fst →
        c ∈ (runRegisters ⟨[], []⟩ "h" [(1, 10), (2, 20)]).closed.map Prod.fst) :=
  c3_register_last_wins ⟨[], []⟩ "h" [(1, 10), (2, 20)] (by simp)

theorem find?_filter_ne (hash k : String) (h : k ≠ hash) :
    ∀ l : List (String × ExitEntry),
      (l.filter (fun p => !(p.1 == hash))).find? (fun p => p.1 == k) =
        l.find? (fun p => p.1 == k) := by
  intro l
  induction l with
  | nil => rfl
  | cons p rest ih =>
    by_cases hk : p.1 = k
    · have h1 : ¬ p.1 = hash := by rw [hk]; exact h
      rw [List.filter_cons_of_pos (by simp [h1]),
        List.find?_cons_of_pos _ (by simp [hk]),
        List.find?_cons_of_pos _ (by simp [hk])]
    · by_cases hh : p.1 = hash
      · rw [List.filter_cons_of_neg (by simp [hh]), ih,
          List.find?_cons_of_neg _ (by simp [hk])]
      · rw [List.filter_cons_of_pos (by simp [hh]),
          List.find?_cons_of_neg _ (by simp [hk]),
          List.find?_cons_of_neg _ (by simp [hk]), ih]

theorem find?_erase_none (hash : String) (l : List (String × ExitEntry)) :
    (l.filter (fun p => !(p.1 == hash))).find? (fun p => p.1 == hash) = none := by
  rw [List.find?_eq_none]
  intro a ha
  have := List.of_mem_filter ha
  simpa using this

/-- C4 (claim): `RemoveIfMatch(hash, conn)` deletes the entry for `hash`
exactly when the stored connection is identically `conn`, returns whether a
deletion occurred, closes nothing, touches no other key — and when the
registry maps `hash` to a different connection it returns `false` and leaves
the state untouched. -/
theorem c4_removeIfMatch_identity (s : RegState) (hash : String) (conn : Nat) :
    ((s.removeIfMatch hash conn).1 = true ↔
      ∃ e, s.lookup hash = some e ∧ e.conn = conn)
    ∧ ((s.removeIfMatch hash conn).1 = false → (s.removeIfMatch hash conn).2 = s)
    ∧ ((s.removeIfMatch hash conn).1 = true →
        (s.removeIfMatch hash conn).2.lookup hash = none ∧
        (∀ k, k ≠ hash → (s.removeIfMatch hash conn).2.lookup k = s.lookup k) ∧
        (s.removeIfMatch hash conn).2.closed = s.closed)
    ∧ (∀ e, s.lookup hash = some e → e.conn ≠ conn →
        s.removeIfMatch hash conn = (false, s)) := by
  cases hl : s.lookup hash with
  | none =>
    have hres : s.removeIfMatch hash conn = (false, s) := by
      simp [RegState.removeIfMatch, hl]
    refine ⟨?_, ?_, ?_, ?_⟩
    · rw [hres]
      exact ⟨fun habs => absurd habs (by simp),
        fun ⟨e2, he2, _⟩ => absurd he2 (by simp)⟩
    · intro _; rw [hres]
    · intro habs; rw [hres] at habs; exact absurd habs (by simp)
    · intro e2 he2 _; exact absurd he2 (by simp)
  | some e =>
    by_cases hc : e.conn = conn
    · have hres : s.removeIfMatch hash conn =
          (true, { s with entries := s.entries.filter (fun p => !(p.1 == hash)) }) := by
        simp [RegState.removeIfMatch, hl, hc]
      refine ⟨?_, ?_, ?_, ?_⟩
      · rw [hres]
        exact ⟨fun _ => ⟨e, rfl, hc⟩, fun _ => rfl⟩
      · intro habs; rw [hres] at habs; exact absurd habs (by simp)
      · intro _
        rw [hres]
        refine ⟨?_, ?_, rfl⟩
        · simp only [RegState.lookup]
          rw [find?_erase_none]
          rfl
        · intro k hk
          simp only [RegState.lookup]
          rw [find?_filter_ne hash k hk]
      · intro e2 he2 hne2
        obtain rfl := Option.some.inj he2
        exact absurd hc hne2
    · have hres : s.removeIfMatch hash conn = (false, s) := by
        simp [RegState.removeIfMatch, hl, hc]
      refine ⟨?_, ?_, ?_, ?_⟩
      · rw [hres]
        refine ⟨fun habs => absurd habs (by simp), ?_⟩
        rintro ⟨e2, he2, hcn⟩
        obtain rfl := Option.some.inj he2
        exact absurd hcn hc
      · intro _; rw [hres]
      · intro habs; rw [hres] at habs; exact absurd habs (by simp)
      · intro e2 he2 hne2; exact hres

/-- C4 witness: the registry maps "h" to connection 2; `RemoveIfMatch` with
connection 1 returns `false` and leaves the state unchanged. -/
theorem c4_witness :
    RegState.removeIfMatch ⟨[("h", ⟨"h", 2, 0, 0⟩)], []⟩ "h" 1 =
      (false, ⟨[("h", ⟨"h", 2, 0, 0⟩)], []⟩) :=
  (c4_removeIfMatch_identity ⟨[("h", ⟨"h", 2, 0, 0⟩)], []⟩ "h" 1).2.2.2
    ⟨"h", 2, 0, 0⟩ rfl (by decide)

/-! ### Heartbeats and cleanup (C6)

`UpdateHeartbeat` and `cleanup` interleave arbitrarily on the lock-protected
map; an interleaving is a list of timestamped events processed in order. -/

inductive HbEv where
  | hb (t : Nat)
  | clean (t : Nat)
  deriving DecidableEq, Repr

/-- Run an interleaving of `UpdateHeartbeat hash` and `cleanup ttl` events. -/
def runHbEvents (ttl : Nat) (hash : String) (s : RegState) : List HbEv → RegState
  | [] => s
  | .hb t :: es => runHbEvents ttl hash (s.updateHeartbeat hash t) es
  | .clean t :: es => runHbEvents ttl hash (s.cleanup ttl t) es

/-- "Heartbeats faster than the TTL": at every cleanup instant `t`, the most
recent heartbeat (initially `last`) is at most `ttl` old. -/
def hbTimely (ttl : Nat) : Nat → List HbEv → Bool
  | _, [] => true
  | _, .hb t :: es => hbTimely ttl t es
  | last, .clean t :: es => decide (t - last ≤ ttl) && hbTimely ttl last es

theorem find?_update_map (hash : String) (now : Nat) :
    ∀ l : List (String × ExitEntry),
      (l.map (fun p => if p.1 == hash then (p.1, { p.2 with lastHeartbeat := now })
          else p)).find? (fun p => p.1 == hash) =
        (l.find? (fun p => p.1 == hash)).map
          (fun p => (p.1, { p.2 with lastHeartbeat := now })) := by
  intro l
  induction l with
  | nil => rfl
  | cons p rest ih =>
    by_cases hp : p.1 = hash
    · rw [List.map_cons, if_pos (by simp [hp]),
        List.find?_cons_of_pos _ (by simp [hp]),
        List.find?_cons_of_pos _ (by simp [hp])]
      rfl
    · rw [List.map_cons, if_neg (by simp [hp]),
        List.find?_cons_of_neg _ (by simp [hp]),
        List.find?_cons_of_neg _ (by simp [hp]), ih]

theorem update_keys (s : RegState) (hash : String) (now : Nat) :
    (s.updateHeartbeat hash now).entries.map Prod.fst = s.entries.map Prod.fst := by
  simp only [RegState.updateHeartbeat, List.map_map]
  refine List.map_congr_left ?_
  intro p _
  by_cases hp : p.1 = hash
  · simp [hp]
  · simp [hp]

theorem update_lookup_none (s : RegState) (hash : String) (now : Nat)
    (h : s.lookup hash = none) : s.updateHeartbeat hash now = s := by
  have hall : ∀ p ∈ s.entries, ¬ ((fun p : String × ExitEntry => p.1 == hash) p = true) :=
    List.find?_eq_none.mp (by simpa [RegState.lookup] using h)
  have hmap : ∀ l : List (String × ExitEntry), (∀ p ∈ l, ¬ ((p.1 == hash) = true)) →
      l.map (fun p =>
        if p.1 == hash then (p.1, { p.2 with lastHeartbeat := now }) else p) = l := by
    intro l
    induction l with
    | nil => intro _; rfl
    | cons p rest ih =>
      intro hall2
      rw [List.map_cons, if_neg (hall2 p (by simp)),
        ih (fun x hx => hall2 x (by simp [hx]))]
  simp only [RegState.updateHeartbeat, hmap s.entries hall]

theorem update_lookup_some (s : RegState) (hash : String) (now : Nat) {e : ExitEntry}
    (h : s.lookup hash = some e) :
    (s.updateHeartbeat hash now).lookup hash = some { e with lastHeartbeat := now } := by
  simp only [RegState.lookup] at h ⊢
  simp only [RegState.updateHeartbeat, find?_update_map]
  obtain ⟨p, hfind, hsnd⟩ : ∃ p, s.entries.find? (fun p => p.1 == hash) = some p ∧ p.2 = e := by
    cases hf : s.entries.find? (fun p => p.1 == hash) with
    | none => rw [hf] at h; exact absurd h (by simp)
    | some p => rw [hf] at h; exact ⟨p, rfl, by simpa using h⟩
  rw [hfind]
  simp [hsnd]

theorem cleanup_keys_sublist (s : RegState) (ttl now : Nat) :
    ((s.cleanup ttl now).entries.map Prod.fst).Sublist (s.entries.map Prod.fst) := by
  exact List.Sublist.map Prod.fst (List.filter_sublist _)

theorem find?_filter_of_nodup (k : String) (q : String × ExitEntry → Bool) :
    ∀ (l : List (String × ExitEntry)), (l.map Prod.fst).Nodup →
      ∀ {p}, l.find? (fun x => x.1 == k) = some p →
      (l.filter q).find? (fun x => x.1 == k) = (if q p then some p else none) := by
  intro l
  induction l with
  | nil => intro _ p hp; exact absurd hp (by simp)
  | cons a rest ih =>
    intro hnd p hp
    have hnd2 : (rest.map Prod.fst).Nodup := (List.nodup_cons.mp hnd).2
    by_cases ha : a.1 = k
    · have hpa : p = a := by
        rw [List.find?_cons_of_pos _ (by simp [ha])] at hp
        exact (Option.some.inj hp).symm
      subst hpa
      have hnot : ∀ x ∈ rest, ¬ ((fun x : String × ExitEntry => x.1 == k) x = true) := by
        intro x hx
        have hne : x.1 ≠ p.1 := by
          intro hcontra
          exact (List.nodup_cons.mp hnd).1 (hcontra ▸ List.mem_map_of_mem Prod.fst hx)
        simp [ha ▸ hne]
      by_cases hq : q p
      · rw [List.filter_cons_of_pos hq, List.find?_cons_of_pos _ (by simp [ha]), if_pos hq]
      · rw [List.filter_cons_of_neg hq, if_neg hq, List.find?_eq_none]
        intro x hx
        exact hnot x (List.mem_of_mem_filter hx)
    · rw [List.find?_cons_of_neg _ (by simp [ha])] at hp
      by_cases hqa : q a
      · rw [List.filter_cons_of_pos hqa, List.find?_cons_of_neg _ (by simp [ha])]
        exact ih hnd2 hp
      · rw [List.filter_cons_of_neg hqa]
        exact ih hnd2 hp

theorem cleanup_lookup (s : RegState) (ttl now : Nat) (k : String) {e : ExitEntry}
    (hnd : s.keysNodup) (h : s.lookup k = some e) :
    (s.cleanup ttl now).lookup k =
      (if now - e.lastHeartbeat > ttl then none else some e) := by
  simp only [RegState.lookup] at h
  obtain ⟨p, hfind, hsnd⟩ : ∃ p, s.entries.find? (fun x => x.1 == k) = some p ∧ p.2 = e := by
    cases hf : s.entries.find? (fun x => x.1 == k) with
    | none => rw [hf] at h; exact absurd h (by simp)
    | some p => rw [hf] at h; exact ⟨p, rfl, by simpa using h⟩
  have := find?_filter_of_nodup k
    (fun p => !(decide (now - p.2.lastHeartbeat > ttl))) s.entries hnd hfind
  simp only [RegState.cleanup, RegState.lookup, this, hsnd]
  by_cases hc : now - e.lastHeartbeat > ttl
  · rw [if_neg (by simp [hsnd, hc]), if_pos hc]
    rfl
  · rw [if_pos (by simp [hsnd, hc]), if_neg hc]
    simp [hsnd]

theorem cleanup_closes (s : RegState) (ttl now : Nat) (k : String) {e : ExitEntry}
    (h : s.lookup k = some e) (hexp : now - e.lastHeartbeat > ttl) :
    e.conn ∈ (s.cleanup ttl now).closed.map Prod.fst := by
  simp only [RegState.lookup] at h
  obtain ⟨p, hfind, hsnd⟩ : ∃ p, s.entries.find? (fun x => x.1 == k) = some p ∧ p.2 = e := by
    cases hf : s.entries.find? (fun x => x.1 == k) with
    | none => rw [hf] at h; exact absurd h (by simp)
    | some p => rw [hf] at h; exact ⟨p, rfl, by simpa using h⟩
  have hmem : p ∈ s.entries := List.mem_of_find?_eq_some hfind
  have hkeep : p ∈ s.entries.filter (fun p => decide (now - p.2.lastHeartbeat > ttl)) :=
    List.mem_filter.mpr ⟨hmem, by simp [hsnd, hexp]⟩
  simp only [RegState.cleanup]
  rw [List.map_append]
  refine List.mem_append_right _ ?_
  rw [List.map_map]
  exact hsnd ▸ List.mem_map_of_mem _ hkeep

/-- C6 (claim): `UpdateHeartbeat` refreshes `lastHeartbeat` of an existing
entry and is a silent no-op for a missing hash; `cleanup ttl` closes and
deletes exactly the entries with `now − lastHeartbeat > ttl`; consequently an
entry whose heartbeats always arrive within the TTL of every cleanup instant
is never evicted. -/
theorem c6_heartbeat_keeps_alive :
    (∀ (s : RegState) (hash : String) (now : Nat),
      s.lookup hash = none → s.updateHeartbeat hash now = s)
    ∧ (∀ (s : RegState) (hash : String) (now : Nat) (e : ExitEntry),
      s.lookup hash = some e →
      (s.updateHeartbeat hash now).lookup hash = some { e with lastHeartbeat := now })
    ∧ (∀ (s : RegState) (ttl now : Nat) (k : String) (e : ExitEntry),
      s.keysNodup → s.lookup k = some e →
      ((s.cleanup ttl now).lookup k =
        (if now - e.lastHeartbeat > ttl then none else some e))
      ∧ (now - e.lastHeartbeat > ttl →
        e.conn ∈ (s.cleanup ttl now).closed.map Prod.fst))
    ∧ (∀ (ttl : Nat) (hash : String) (evs : List HbEv) (s : RegState) (e : ExitEntry),
      s.keysNodup → s.lookup hash = some e →
      hbTimely ttl e.lastHeartbeat evs = true →
      ∃ e2, (runHbEvents ttl hash s evs).lookup hash = some e2 ∧ e2.conn = e.conn) := by
  refine ⟨update_lookup_none, update_lookup_some, ?_, ?_⟩
  · intro s ttl now k e hnd h
    exact ⟨cleanup_lookup s ttl now k hnd h, cleanup_closes s ttl now k h⟩
  · intro ttl hash evs
    induction evs with
    | nil => intro s e _ hl _; exact ⟨e, hl, rfl⟩
    | cons ev rest ih =>
      intro s e hnd hl htimely
      cases ev with
      | hb t =>
        have hl2 := update_lookup_some s hash t hl
        have hnd2 : (s.updateHeartbeat hash t).keysNodup := by
          unfold RegState.keysNodup
          rw [update_keys]
          exact hnd
        have ht2 : hbTimely ttl ({ e with lastHeartbeat := t } : ExitEntry).lastHeartbeat
            rest = true := by simpa [hbTimely] using htimely
        obtain ⟨e2, he2, hconn⟩ := ih (s.updateHeartbeat hash t) _ hnd2 hl2 ht2
        exact ⟨e2, he2, hconn⟩
      | clean t =>
        have htparts : (t - e.lastHeartbeat ≤ ttl) ∧
            hbTimely ttl e.lastHeartbeat rest = true := by
          simpa [hbTimely] using htimely
        have hl2 : (s.cleanup ttl t).lookup hash = some e := by
          rw [cleanup_lookup s ttl t hash hnd hl, if_neg (by omega)]
        have hnd2 : (s.cleanup ttl t).keysNodup :=
          (cleanup_keys_sublist s ttl t).nodup hnd
        exact ih (s.cleanup ttl t) e hnd2 hl2 htparts.2

/-- C6 witness: a concrete entry receiving heartbeats within a TTL of 10
survives two interleaved cleanups. -/
theorem c6_witness :
    ∃ e2, (runHbEvents 10 "h" ⟨[("h", ⟨"h", 5, 0, 0⟩)], []⟩
        [.hb 8, .clean 15, .hb 20, .clean 25]).lookup "h" = some e2 ∧
      e2.conn = (⟨"h", 5, 0, 0⟩ : ExitEntry).conn :=
  c6_heartbeat_keeps_alive.2.2.2 10 "h" [.hb 8, .clean 15, .hb 20, .clean 25]
    ⟨[("h", ⟨"h", 5, 0, 0⟩)], []⟩ ⟨"h", 5, 0, 0⟩ (by simp [RegState.keysNodup])
    rfl (by decide)

/-! ## OHTTP crypto core — `internal/crypto/keys.go`

HPKE (cloudflare/circl) and Go's `net/http` request (de)serialization are
external libraries consumed by this repository.  They enter the embedding as
parameters (`HPKEPrims`, `HTTPSerial`), constrained in each theorem only by
their documented contracts.  Everything the repository's own code does — the
7-byte AAD construction, the `KeyID || KEM_ID || KDF_ID || AEAD_ID || enc ||
ct` layout, the keyID and suite checks, the enc/ciphertext split — is
embedded faithfully from `EncapsulateRequest`/`DecapsulateRequest`. -/

/-- `hpke.KEM_X25519_HKDF_SHA256` (0x20). -/
def KEMID : Nat := 32

/-- `hpke.KDF_HKDF_SHA256` (0x01). -/
def KDFID : Nat := 1

/-- `hpke.AEAD_AES128GCM` (0x01). -/
def AEADID : Nat := 1

/-- An in-memory HTTP request: the fields whose round-trip the spec
requires.  Header order is part of the serialized form. -/
structure HTTPRequest where
  method : List Nat
  path : List Nat
  headers : List (List Nat × List Nat)
  body : List Nat
  deriving DecidableEq, Repr

/-- External HPKE primitives.  `setupS pub` is one sender setup (one draw of
randomness) returning the encapsulated KEM output and the sealer state;
`setupR priv enc` the receiver setup; `sealCt`/`openCt` the AEAD under the
established context.  States are opaque byte strings. -/
structure HPKEPrims where
  encSize : Nat
  setupS : List Nat → List Nat × List Nat
  setupR : List Nat → List Nat → Option (List Nat)
  sealCt : List Nat → List Nat → List Nat → List Nat
  openCt : List Nat → List Nat → List Nat → Option (List Nat)

/-- External HTTP serialization: `httputil.DumpRequest` and
`http.ReadRequest`. -/
structure HTTPSerial where
  dump : HTTPRequest → List Nat
  readReq : List Nat → Option HTTPRequest

/-- `crypto.OHTTPClient`. -/
structure OHTTPClient where
  keyID : Nat
  pubKeyRaw : List Nat

/-- `crypto.OHTTPServer`. -/
structure OHTTPServer where
  keyID : Nat
  privateKey : List Nat

/-- `OHTTPClient.EncapsulateRequest`: serialize the request, run HPKE sender
setup, build `AAD = KeyID || KEM_ID || KDF_ID || AEAD_ID` (7 bytes), seal,
and emit `AAD || enc || ct`.  Returns the encapsulation and the retained
sealer state (the `ClientContext`). -/
def EncapsulateRequest (P : HPKEPrims) (S : HTTPSerial) (c : OHTTPClient)
    (req : HTTPRequest) : List Nat × List Nat :=
  let reqBytes := S.dump req
  let es := P.setupS c.pubKeyRaw
  let aad := c.keyID :: (putUint16 KEMID ++ putUint16 KDFID ++ putUint16 AEADID)
  let ct := P.sealCt es.2 reqBytes aad
  (aad ++ es.1 ++ ct, es.2)

/-- The distinct failure exits of `DecapsulateRequest` (one per `fmt.Errorf`
site; library-level failures of receiver setup are folded into
`setupFailed`). -/
inductive DecapErr where
  | tooShort
  | keyIDMismatch (expected got : Nat)
  | unsupportedSuite
  | incompleteData
  | setupFailed
  | openFailed
  | parseFailed
  deriving DecidableEq, Repr

/-- `OHTTPServer.DecapsulateRequest`: refuse inputs shorter than 7 bytes,
check the KeyID byte against the configured one, check the three suite IDs,
split off `enc` of the KEM ciphertext size, open with `AAD = data[:7]`, and
parse the inner request.  Returns the request and the retained opener state
(the `ServerContext`). -/
def DecapsulateRequest (P : HPKEPrims) (S : HTTPSerial) (s : OHTTPServer)
    (data : List Nat) : Except DecapErr (HTTPRequest × List Nat) :=
  match data with
  | k :: a1 :: a2 :: b1 :: b2 :: c1 :: c2 :: rest =>
    if k ≠ s.keyID then .error (.keyIDMismatch s.keyID k)
    else if ¬ (a1 * 256 + a2 = KEMID ∧ b1 * 256 + b2 = KDFID ∧
        c1 * 256 + c2 = AEADID) then .error .unsupportedSuite
    else if rest.length < P.encSize then .error .incompleteData
    else
      let enc := rest.take P.encSize
      let ct := rest.drop P.encSize
      let aad := [k, a1, a2, b1, b2, c1, c2]
      match P.setupR s.privateKey enc with
      | none => .error .setupFailed
      | some opener =>
        match P.openCt opener ct aad with
        | none => .error .openFailed
        | some reqBytes =>
          match S.readReq reqBytes with
          | none => .error .parseFailed
          | some req => .ok (req, opener)
  | _ => .error .tooShort

/-- The encapsulation in cons form: the 7 AAD bytes followed by
`enc ++ ct`. -/
theorem encap_cons (P : HPKEPrims) (S : HTTPSerial) (c : OHTTPClient)
    (req : HTTPRequest) :
    (EncapsulateRequest P S c req).1 =
      c.keyID :: 0 :: 32 :: 0 :: 1 :: 0 :: 1 ::
        ((P.setupS c.pubKeyRaw).1 ++
          P.sealCt (P.setupS c.pubKeyRaw).2 (S.dump req)
            (c.keyID :: 0 :: 32 :: 0 :: 1 :: 0 :: 1 :: [])) := by
  simp [EncapsulateRequest, putUint16, KEMID, KDFID, AEADID]

/-- C1 (claim): for every request and every key pair on which the HPKE
library satisfies its correctness contract (receiver setup accepts the
sender's `enc`; `opn` inverts `seal`; `ReadRequest` inverts `DumpRequest`;
the sender's `enc` has the KEM ciphertext size), decapsulating the
encapsulation of a request under the matching private key succeeds and
returns the original request — method, path, headers and body included — by
record equality. -/
theorem c1_ohttp_roundtrip (P : HPKEPrims) (S : HTTPSerial)
    (kid : Nat) (pub priv : List Nat) (req : HTTPRequest) (ost : List Nat)
    (henc : (P.setupS pub).1.length = P.encSize)
    (hsetup : P.setupR priv (P.setupS pub).1 = some ost)
    (hopen : ∀ pt aad, P.openCt ost (P.sealCt (P.setupS pub).2 pt aad) aad = some pt)
    (hparse : S.readReq (S.dump req) = some req) :
    DecapsulateRequest P S ⟨kid, priv⟩
      (EncapsulateRequest P S ⟨kid, pub⟩ req).1 = .ok (req, ost) := by
  rw [encap_cons]
  simp only [DecapsulateRequest]
  rw [if_neg (by simp)]
  rw [if_neg (by simp [KEMID, KDFID, AEADID])]
  have hlen : ¬ (((P.setupS pub).1 ++
      P.sealCt (P.setupS pub).2 (S.dump req)
        (kid :: 0 :: 32 :: 0 :: 1 :: 0 :: 1 :: [])).length < P.encSize) := by
    rw [List.length_append, henc]
    omega
  rw [if_neg hlen]
  have htake : ((P.setupS pub).1 ++
      P.sealCt (P.setupS pub).2 (S.dump req)
        (kid :: 0 :: 32 :: 0 :: 1 :: 0 :: 1 :: [])).take P.encSize =
      (P.setupS pub).1 := by
    rw [← henc, List.take_left]
  have hdrop : ((P.setupS pub).1 ++
      P.sealCt (P.setupS pub).2 (S.dump req)
        (kid :: 0 :: 32 :: 0 :: 1 :: 0 :: 1 :: [])).drop P.encSize =
      P.sealCt (P.setupS pub).2 (S.dump req) (kid :: 0 :: 32 :: 0 :: 1 :: 0 :: 1 :: []) := by
    rw [← henc, List.drop_left]
  rw [htake, hdrop, hsetup]
  simp only
  rw [hopen]
  simp only [hparse]

/-- C1 witness: a trivial HPKE instance and serializer satisfying the
contracts round-trip a concrete GET request. -/
def idPrims : HPKEPrims where
  encSize := 0
  setupS := fun _ => ([], [])
  setupR := fun _ _ => some []
  sealCt := fun _ pt _ => pt
  openCt := fun _ ct _ => some ct

def witReq : HTTPRequest := ⟨[71, 69, 84], [47], [], []⟩

def witSerial : HTTPSerial where
  dump := fun r => r.method ++ [32] ++ r.path
  readReq := fun bs => if bs = [71, 69, 84, 32, 47] then some witReq else none

theorem c1_witness :
    DecapsulateRequest idPrims witSerial ⟨7, [9]⟩
      (EncapsulateRequest idPrims witSerial ⟨7, [8]⟩ witReq).1 = .ok (witReq, []) :=
  c1_ohttp_roundtrip idPrims witSerial 7 [8] [9] witReq [] rfl rfl
    (fun _ _ => rfl) (by decide)

/-- C2 (claim): whenever the client's KeyID byte differs from the server's
configured KeyID, decapsulation of any encapsulated request fails, and with
the specific keyID-mismatch error — not an AEAD open failure. -/
theorem c2_keyid_mismatch_total (P : HPKEPrims) (S : HTTPSerial)
    (ckid skid : Nat) (pub priv : List Nat) (req : HTTPRequest)
    (hne : ckid ≠ skid) :
    DecapsulateRequest P S ⟨skid, priv⟩
      (EncapsulateRequest P S ⟨ckid, pub⟩ req).1 =
      .error (.keyIDMismatch skid ckid) := by
  rw [encap_cons]
  simp only [DecapsulateRequest]
  rw [if_pos hne]

/-- C2 witness: KeyID 7 against a server configured with KeyID 3. -/
theorem c2_witness :
    DecapsulateRequest idPrims witSerial ⟨3, [9]⟩
      (EncapsulateRequest idPrims witSerial ⟨7, [8]⟩ witReq).1 =
      .error (.keyIDMismatch 3 7) :=
  c2_keyid_mismatch_total idPrims witSerial 7 3 [8] [9] witReq (by decide)

/-! ## Message type constants — `internal/protocol/messages.go` (extended set) -/

def MessageTypeRequest : Nat := 1
def MessageTypeResponse : Nat := 2
def MessageTypeStreamRequest : Nat := 3
def MessageTypeStreamChunk : Nat := 4
def MessageTypeStreamEnd : Nat := 5
def MessageTypeRegister : Nat := 16
def MessageTypeRegisterAck : Nat := 17
def MessageTypeQueryExitKeys : Nat := 18
def MessageTypeExitKeysResponse : Nat := 19
def MessageTypeHeartbeat : Nat := 32
def MessageTypeHeartbeatAck : Nat := 33
def MessageTypeError : Nat := 255

/-- UTF-8 bytes of an ASCII string literal. -/
def strBytes (s : String) : List Nat := s.data.map Char.toNat

/-- `protocol.NewErrorMessage`. -/
def NewErrorMessage (payload : List Nat) : Message := ⟨MessageTypeError, [], payload⟩

/-- `protocol.NewRegisterAckMessage` (called with a nil payload). -/
def NewRegisterAckMessage (payload : List Nat) : Message :=
  ⟨MessageTypeRegisterAck, [], payload⟩

/-! ## Relay Exit-connection handler — `QUICServer.handleExitConnection`

The handler performs a bounded prefix of I/O before entering its heartbeat
loop; each I/O step either succeeds or fails, so a run is determined by the
outcome flags: did the registration stream accept succeed, what did `Decode`
return, did the `RegisterAck` write succeed.  The observable effects, in
program order, are the trace. -/

inductive ExAction where
  | closeConn (code : Nat) (reason : String)
  | writeMsg (m : Message)
  | closeRegStream
  | registryInsert (hash : List Nat) (keyConfig : List Nat)
  | enterHeartbeatLoop
  deriving DecidableEq, Repr

/-- `QUICServer.handleExitConnection` up to the heartbeat loop: accept the
registration stream, decode one message, require type `Register` with a
non-empty Target, write `RegisterAck`, close the stream, then insert into
the registry and serve heartbeats. -/
def handleExitConnection (regStreamOk : Bool) (decoded : Option Message)
    (writeAckOk : Bool) : List ExAction :=
  if regStreamOk then
    match decoded with
    | none => [.closeRegStream, .closeConn 1 "read register message failed"]
    | some msg =>
      if msg.type = MessageTypeRegister then
        if msg.target ≠ [] then
          if writeAckOk then
            [.writeMsg (NewRegisterAckMessage []), .closeRegStream,
              .registryInsert msg.target msg.payload, .enterHeartbeatLoop]
          else
            [.closeRegStream, .closeConn 1 "send register ack failed"]
        else
          [.writeMsg (NewErrorMessage (strBytes "missing pubKeyHash")), .closeRegStream,
            .closeConn 1 "missing pubKeyHash"]
      else
        [.writeMsg (NewErrorMessage (strBytes "expected register message")), .closeRegStream,
          .closeConn 1 "unexpected message type"]
  else
    [.closeConn 1 "accept register stream failed"]

/-- C7 (claim): in every run of the Exit-connection handler, a registry
insertion is preceded in the trace by a successful `RegisterAck` write, and
when the ack write fails no insertion ever happens. -/
theorem c7_ack_before_insert (regStreamOk : Bool) (decoded : Option Message)
    (writeAckOk : Bool) :
    (∀ hash kc,
      ExAction.registryInsert hash kc ∈
          handleExitConnection regStreamOk decoded writeAckOk →
      ∃ pre post, handleExitConnection regStreamOk decoded writeAckOk =
        pre ++ ExAction.registryInsert hash kc :: post ∧
        ExAction.writeMsg (NewRegisterAckMessage []) ∈ pre)
    ∧ (writeAckOk = false → ∀ hash kc,
      ExAction.registryInsert hash kc ∉
        handleExitConnection regStreamOk decoded writeAckOk) := by
  constructor
  · intro hash kc hmem
    cases regStreamOk with
    | false => simp [handleExitConnection] at hmem
    | true =>
      cases decoded with
      | none => simp [handleExitConnection] at hmem
      | some msg =>
        by_cases h2 : msg.type = MessageTypeRegister
        · by_cases h3 : msg.target = []
          · simp [handleExitConnection, h2, h3, NewErrorMessage] at hmem
          · cases writeAckOk with
            | false => simp [handleExitConnection, h2, h3] at hmem
            | true =>
              have htr : handleExitConnection true (some msg) true =
                  [.writeMsg (NewRegisterAckMessage []), .closeRegStream,
                    .registryInsert msg.target msg.payload, .enterHeartbeatLoop] := by
                simp [handleExitConnection, h2, h3]
              rw [htr] at hmem ⊢
              have hk : hash = msg.target ∧ kc = msg.payload := by
                simpa [NewRegisterAckMessage] using hmem
              obtain ⟨rfl, rfl⟩ := hk
              exact ⟨[.writeMsg (NewRegisterAckMessage []), .closeRegStream],
                [.enterHeartbeatLoop], rfl, by simp⟩
        · simp [handleExitConnection, h2, NewErrorMessage] at hmem
  · rintro rfl hash kc hmem
    cases regStreamOk with
    | false => simp [handleExitConnection] at hmem
    | true =>
      cases decoded with
      | none => simp [handleExitConnection] at hmem
      | some msg =>
        by_cases h2 : msg.type = MessageTypeRegister
        · by_cases h3 : msg.target = []
          · simp [handleExitConnection, h2, h3, NewErrorMessage] at hmem
          · simp [handleExitConnection, h2, h3] at hmem
        · simp [handleExitConnection, h2, NewErrorMessage] at hmem

/-- C7 witness: a well-formed Register message with ack write succeeding —
the insertion exists and is preceded by the ack. -/
theorem c7_witness :
    ∃ pre post, handleExitConnection true (some ⟨16, [104], [5]⟩) true =
      pre ++ ExAction.registryInsert [104] [5] :: post ∧
      ExAction.writeMsg (NewRegisterAckMessage []) ∈ pre :=
  (c7_ack_before_insert true (some ⟨16, [104], [5]⟩) true).1 [104] [5] (by decide)

/-! ## Exit tunnel inbound-stream handler — `TunnelClient.handleIncomingStream`

The handler decodes one message and dispatches; the observable writes on the
stream form the trace.  Internal Go `error` values are byte strings; the
source interpolates them into wire Error payloads with `fmt.Sprintf`. -/

inductive TunAction where
  | writeMsg (m : Message)
  | closeStream
  deriving DecidableEq, Repr

def hexDigitChar (n : Nat) : Nat := if n < 10 then 48 + n else 87 + n

/-- `fmt.Sprintf "%02x"` of one byte. -/
def byteHex (b : Nat) : List Nat := [hexDigitChar (b / 16 % 16), hexDigitChar (b % 16)]

/-- `TunnelClient.handleIncomingStream`: decode, dispatch on type; the error
branches build their Error payloads by interpolating the internal error text
(`fmt.Sprintf("decode error: %v", err)` and friends). -/
def handleIncomingStream (decodeRes : Except (List Nat) Message)
    (procRes : Except (List Nat) (List Nat)) (streamRes : Option (List Nat)) :
    List TunAction :=
  match decodeRes with
  | .error e =>
    [.writeMsg (NewErrorMessage (strBytes "decode error: " ++ e)), .closeStream]
  | .ok msg =>
    if msg.type = MessageTypeRequest then
      match procRes with
      | .error e =>
        [.writeMsg (NewErrorMessage (strBytes "process error: " ++ e)), .closeStream]
      | .ok resp => [.writeMsg ⟨MessageTypeResponse, [], resp⟩, .closeStream]
    else if msg.type = MessageTypeStreamRequest then
      match streamRes with
      | some e =>
        [.writeMsg (NewErrorMessage (strBytes "stream error: " ++ e)), .closeStream]
      | none => [.closeStream]
    else if msg.type = MessageTypeHeartbeat then
      [.writeMsg ⟨MessageTypeHeartbeatAck, [], []⟩, .closeStream]
    else
      [.writeMsg (NewErrorMessage
        (strBytes "unknown message type: 0x" ++ byteHex msg.type)), .closeStream]

/-- The payloads of the Error messages written during a run. -/
def errorPayloads (tr : List TunAction) : List (List Nat) :=
  tr.filterMap (fun a =>
    match a with
    | .writeMsg m => if m.type = MessageTypeError then some m.payload else none
    | .closeStream => none)

/-- The claim's property: the Error payloads emitted on a decode failure do
not depend on the internal error value. -/
def exitErrorIndependent : Prop :=
  ∀ (e1 e2 : List Nat) (procRes : Except (List Nat) (List Nat))
    (streamRes : Option (List Nat)),
    errorPayloads (handleIncomingStream (.error e1) procRes streamRes) =
      errorPayloads (handleIncomingStream (.error e2) procRes streamRes)

/-- C9 (refutation of the claim on the code): the Exit tunnel handler echoes
the internal error text into the wire Error payload — the emitted payload on
a decode failure is literally `"decode error: " ++ err`, so it is not drawn
from a fixed set of constants independent of the internal error value. -/
theorem c9_error_payload_echoes_internal :
    (∀ (e : List Nat) procRes streamRes,
      errorPayloads (handleIncomingStream (.error e) procRes streamRes) =
        [strBytes "decode error: " ++ e])
    ∧ ¬ exitErrorIndependent := by
  constructor
  · intro e procRes streamRes
    simp [handleIncomingStream, errorPayloads, NewErrorMessage]
  · intro h
    have h2 := h [97] [98] (.ok []) none
    simp [handleIncomingStream, errorPayloads, NewErrorMessage, strBytes] at h2

/-! ## Streaming detection — `internal/client/proxy.go` `detectStreaming`

The code decides streaming by byte-substring matching on the body
(`bytes.Contains`, deliberately avoiding JSON parsing), then substring
checks on the URL path and the Accept header.  The spec's clause (a) speaks
of the body parsing as JSON with a boolean field `stream` set to true; to
compare, a JSON parser following the spec's words is defined alongside. -/

def streamPat1 : List Nat := strBytes "\"stream\":true"

def streamPat2 : List Nat := strBytes "\"stream\": true"

/-- `detectStreaming(body, r)`: body byte-match (guarded by `len(body) > 0`),
then `strings.Contains(r.URL.Path, "stream")`, then
`strings.Contains(r.Header.Get("Accept"), "text/event-stream")`. -/
def detectStreaming (body path accept : List Nat) : Bool :=
  (decide (0 < body.length) &&
    (decide (streamPat1 <:+: body) || decide (streamPat2 <:+: body)))
  || decide (strBytes "stream" <:+: path)
  || decide (strBytes "text/event-stream" <:+: accept)

/-! ### A JSON parser, following the spec's words for clause (a)

`specBodyStreamTrue` renders "the request body parses as JSON containing a
boolean field `stream` set to true".  Values are parsed per RFC 8259:
whitespace-tolerant, with string escapes, objects, arrays, numbers and the
three literals; the whole input must be consumed. -/

inductive JVal where
  | jnull
  | jbool (b : Bool)
  | jnum (lit : List Nat)
  | jstr (s : List Nat)
  | jarr (xs : List JVal)
  | jobj (fields : List (List Nat × JVal))

def jWs (c : Nat) : Bool := c == 32 || c == 9 || c == 10 || c == 13

def skipWs : List Nat → List Nat
  | [] => []
  | c :: rest => if jWs c then skipWs rest else c :: rest

def isDigit (c : Nat) : Bool := 48 ≤ c && c ≤ 57

def isHex (c : Nat) : Bool := isDigit c || (97 ≤ c && c ≤ 102) || (65 ≤ c && c ≤ 70)

def hexVal (c : Nat) : Nat :=
  if isDigit c then c - 48 else if 97 ≤ c then c - 87 else c - 55

def utf8Encode (cp : Nat) : List Nat :=
  if cp < 128 then [cp]
  else if cp < 2048 then [192 + cp / 64, 128 + cp % 64]
  else [224 + cp / 4096, 128 + cp / 64 % 64, 128 + cp % 64]

def escChar (e : Nat) : Option Nat :=
  if e = 34 then some 34 else if e = 92 then some 92 else if e = 47 then some 47
  else if e = 98 then some 8 else if e = 102 then some 12 else if e = 110 then some 10
  else if e = 114 then some 13 else if e = 116 then some 9 else none

/-- JSON string body after the opening quote: unescaped content plus the
input after the closing quote. -/
def parseStrBody : List Nat → Option (List Nat × List Nat)
  | [] => none
  | 34 :: rest => some ([], rest)
  | 92 :: 117 :: h1 :: h2 :: h3 :: h4 :: rest =>
    if isHex h1 && isHex h2 && isHex h3 && isHex h4 then
      (parseStrBody rest).map (fun p =>
        (utf8Encode (((hexVal h1 * 16 + hexVal h2) * 16 + hexVal h3) * 16 + hexVal h4)
          ++ p.1, p.2))
    else none
  | 92 :: e :: rest =>
    match escChar e with
    | some c => (parseStrBody rest).map (fun p => (c :: p.1, p.2))
    | none => none
  | c :: rest =>
    if c < 32 then none
    else (parseStrBody rest).map (fun p => (c :: p.1, p.2))

def parseDigits : List Nat → List Nat × List Nat
  | [] => ([], [])
  | c :: rest =>
    if isDigit c then
      let p := parseDigits rest
      (c :: p.1, p.2)
    else ([], c :: rest)

def parseIntPart : List Nat → Option (List Nat × List Nat)
  | 48 :: r => some ([48], r)
  | c :: r =>
    if isDigit c then
      let p := parseDigits r
      some (c :: p.1, p.2)
    else none
  | [] => none

def parseFrac : List Nat → Option (List Nat × List Nat)
  | 46 :: r =>
    let p := parseDigits r
    if p.1 = [] then none else some (46 :: p.1, p.2)
  | bs => some ([], bs)

def parseExp (bs : List Nat) : Option (List Nat × List Nat) :=
  match bs with
  | c :: r =>
    if c = 101 ∨ c = 69 then
      let sr : List Nat × List Nat :=
        match r with
        | 43 :: rr => ([43], rr)
        | 45 :: rr => ([45], rr)
        | _ => ([], r)
      let p := parseDigits sr.2
      if p.1 = [] then none else some (c :: sr.1 ++ p.1, p.2)
    else some ([], c :: r)
  | [] => some ([], [])

def parseNum (bs : List Nat) : Option (List Nat × List Nat) :=
  let nr : List Nat × List Nat :=
    match bs with
    | 45 :: r => ([45], r)
    | _ => ([], bs)
  match parseIntPart nr.2 with
  | none => none
  | some (ip, r2) =>
    match parseFrac r2 with
    | none => none
    | some (fp, r3) =>
      match parseExp r3 with
      | none => none
      | some (ep, r4) => some (nr.1 ++ ip ++ fp ++ ep, r4)

mutual

def parseVal : Nat → List Nat → Option (JVal × List Nat)
  | 0, _ => none
  | fuel + 1, bs =>
    match skipWs bs with
    | [] => none
    | 34 :: rest => (parseStrBody rest).map (fun p => (.jstr p.1, p.2))
    | 116 :: rest =>
      match rest with
      | 114 :: 117 :: 101 :: r => some (.jbool true, r)
      | _ => none
    | 102 :: rest =>
      match rest with
      | 97 :: 108 :: 115 :: 101 :: r => some (.jbool false, r)
      | _ => none
    | 110 :: rest =>
      match rest with
      | 117 :: 108 :: 108 :: r => some (.jnull, r)
      | _ => none
    | 123 :: rest =>
      match skipWs rest with
      | 125 :: r => some (.jobj [], r)
      | _ => parseMembers fuel rest []
    | 91 :: rest =>
      match skipWs rest with
      | 93 :: r => some (.jarr [], r)
      | _ => parseItems fuel rest []
    | c :: rest =>
      if c = 45 || isDigit c then
        (parseNum (c :: rest)).map (fun p => (.jnum p.1, p.2))
      else none

def parseMembers : Nat → List Nat → List (List Nat × JVal) → Option (JVal × List Nat)
  | 0, _, _ => none
  | fuel + 1, bs, acc =>
    match skipWs bs with
    | 34 :: rest =>
      match parseStrBody rest with
      | none => none
      | some (key, r2) =>
        match skipWs r2 with
        | 58 :: r3 =>
          match parseVal fuel r3 with
          | none => none
          | some (v, r4) =>
            match skipWs r4 with
            | 44 :: r5 => parseMembers fuel r5 (acc ++ [(key, v)])
            | 125 :: r5 => some (.jobj (acc ++ [(key, v)]), r5)
            | _ => none
        | _ => none
    | _ => none

def parseItems : Nat → List Nat → List JVal → Option (JVal × List Nat)
  | 0, _, _ => none
  | fuel + 1, bs, acc =>
    match parseVal fuel bs with
    | none => none
    | some (v, r) =>
      match skipWs r with
      | 44 :: r2 => parseItems fuel r2 (acc ++ [v])
      | 93 :: r2 => some (.jarr (acc ++ [v]), r2)
      | _ => none

end

/-- Parse a whole body as one JSON value (trailing whitespace allowed,
nothing else — `json.Unmarshal` semantics). -/
def parseJSON (bs : List Nat) : Option JVal :=
  match parseVal (bs.length + 1) bs with
  | some (v, rest) => if skipWs rest = [] then some v else none
  | none => none

/-- Spec clause (a): the body parses as JSON and is an object with a
top-level field `stream` whose value is the boolean `true`. -/
def specBodyStreamTrue (body : List Nat) : Bool :=
  match parseJSON body with
  | some (.jobj fields) =>
    match fields.find? (fun f => f.1 == strBytes "stream") with
    | some f =>
      match f.2 with
      | .jbool b => b
      | _ => false
    | none => false
  | _ => false

/-- The claim's classification, clause for clause. -/
def specDetectStreaming (body path accept : List Nat) : Bool :=
  specBodyStreamTrue body || decide (strBytes "stream" <:+: path)
    || decide (strBytes "text/event-stream" <:+: accept)

/-- C8 counterexample: the body `{"stream" : true}` — a space before the
colon — parses as JSON with boolean field `stream` true, so the claim says
streaming; but neither byte pattern matches, the path has no "stream", and
the Accept header has no "text/event-stream", so `detectStreaming` says
unary. -/
theorem c8_counterexample :
    detectStreaming (strBytes "\x7b\"stream\" : true\x7d")
        (strBytes "/v1/chat/completions") (strBytes "application/json") = false
    ∧ specDetectStreaming (strBytes "\x7b\"stream\" : true\x7d")
        (strBytes "/v1/chat/completions") (strBytes "application/json") = true := by
  constructor
  · rfl
  · rfl

/-- C8 (amended): the front-end classifies a request as streaming if and
only if the body contains the byte substring `"stream":true` or
`"stream": true`, or the path contains "stream", or the Accept header
contains "text/event-stream". -/
theorem c8_detect_streaming_amended (body path accept : List Nat) :
    detectStreaming body path accept = true ↔
      (streamPat1 <:+: body ∨ streamPat2 <:+: body ∨
        strBytes "stream" <:+: path ∨ strBytes "text/event-stream" <:+: accept) := by
  simp only [detectStreaming, Bool.or_eq_true, Bool.and_eq_true, decide_eq_true_eq]
  constructor
  · rintro (((⟨-, h | h⟩) | h) | h)
    · exact Or.inl h
    · exact Or.inr (Or.inl h)
    · exact Or.inr (Or.inr (Or.inl h))
    · exact Or.inr (Or.inr (Or.inr h))
  · rintro (h | h | h | h)
    · exact Or.inl (Or.inl ⟨lt_of_lt_of_le (by decide : 0 < streamPat1.length)
        h.length_le, Or.inl h⟩)
    · exact Or.inl (Or.inl ⟨lt_of_lt_of_le (by decide : 0 < streamPat2.length)
        h.length_le, Or.inr h⟩)
    · exact Or.inl (Or.inr h)
    · exact Or.inr h

/-- `Message.encode` written in cons form, for reasoning about `Decode`. -/
theorem encode_cons (m : Message) :
    m.encode = (m.type % 256) :: (m.target.length % 65536 / 256 % 256) ::
      (m.target.length % 65536 % 256) ::
      (m.target ++ putUint32 (m.payload.length % 4294967296) ++ m.payload) := by
  simp [Message.encode, putUint16]

/-- C10 (claim): `Encode` applies no size caps — its `TargetLen` field is the
target length reduced mod 2^16 and its `PayloadLen` field the payload length
reduced mod 2^32; a frame whose target length lies in 1025–65535 is encoded
verbatim and then refused by `Decode`; a frame whose target length is 2^16
wraps to a `TargetLen` of 0 and can never decode back to the original
message; and the `Decode ∘ Encode` round-trip holds whenever the target is at
most 1024 bytes and the payload at most 16 MiB. -/
theorem c10_encode_uncapped_roundtrip :
    (∀ m : Message, m.encode.take 3 =
        [m.type % 256, m.target.length % 65536 / 256 % 256,
          m.target.length % 65536 % 256] ∧
      (m.encode.drop (3 + m.target.length)).take 4 =
        putUint32 (m.payload.length % 4294967296))
    ∧ (∀ m : Message, 1025 ≤ m.target.length → m.target.length ≤ 65535 →
        Decode m.encode = .error .targetTooLong)
    ∧ (∀ (m : Message) rest, m.target.length = 65536 → Decode m.encode ≠ .ok (m, rest))
    ∧ (∀ (m : Message) rest, m.type < 256 → m.target.length ≤ maxTargetSize →
        m.payload.length ≤ maxPayloadSize → Decode (m.encode ++ rest) = .ok (m, rest)) := by
  refine ⟨?_, ?_, ?_, ?_⟩
  · intro m
    constructor
    · rw [encode_cons]
      simp [List.take]
    · rw [encode_cons]
      have hd : (3 : Nat) + m.target.length = m.target.length + 3 := by omega
      rw [hd]
      simp only [List.drop_succ_cons, List.drop_zero]
      rw [List.append_assoc, List.drop_left]
      simp [putUint32, List.take]
  · intro m hlo hhi
    rw [encode_cons]
    have e2 : m.target.length % 65536 = m.target.length := Nat.mod_eq_of_lt (by omega)
    rw [e2]
    have hcond : m.target.length / 256 % 256 * 256 + m.target.length % 256 > maxTargetSize := by
      simp only [maxTargetSize]
      omega
    simp [Decode, hcond]
  · intro m rest hlen hok
    rw [encode_cons, hlen] at hok
    norm_num at hok
    have := Decode_ok_inversion hok
    omega
  · intro m rest hty htl hpl
    obtain ⟨ty, tg, pld⟩ := m
    simp only at hty htl hpl
    simp only [maxTargetSize] at htl
    simp only [maxPayloadSize] at hpl
    rw [encode_cons]
    simp only
    have e1 : ty % 256 = ty := Nat.mod_eq_of_lt hty
    have e2 : tg.length % 65536 = tg.length := Nat.mod_eq_of_lt (by omega)
    have e3 : pld.length % 4294967296 = pld.length := Nat.mod_eq_of_lt (by omega)
    rw [e1, e2, e3]
    simp only [putUint32, List.cons_append, List.nil_append, List.append_assoc]
    simp only [Decode]
    have e4 : tg.length / 256 % 256 * 256 + tg.length % 256 = tg.length := by omega
    rw [e4, if_neg (by simp only [maxTargetSize]; omega)]
    have hr1 : readFull tg.length
        (tg ++ pld.length / 16777216 % 256 :: pld.length / 65536 % 256 ::
          pld.length / 256 % 256 :: pld.length % 256 :: (pld ++ rest)) =
        some (tg, pld.length / 16777216 % 256 :: pld.length / 65536 % 256 ::
          pld.length / 256 % 256 :: pld.length % 256 :: (pld ++ rest)) := by
      have := readFull_append tg (pld.length / 16777216 % 256 :: pld.length / 65536 % 256 ::
        pld.length / 256 % 256 :: pld.length % 256 :: (pld ++ rest))
      exact this
    rw [hr1]
    simp only
    have e5 : ((pld.length / 16777216 % 256 * 256 + pld.length / 65536 % 256) * 256 +
        pld.length / 256 % 256) * 256 + pld.length % 256 = pld.length := by omega
    rw [e5, if_neg (by simp only [maxPayloadSize]; omega), readFull_append]

/-- C10 witness: a concrete in-cap message round-trips through
`Decode ∘ Message.encode`, preserving trailing bytes. -/
theorem c10_witness :
    Decode ((Message.mk 1 [104, 105] [7]).encode ++ [9]) = .ok (⟨1, [104, 105], [7]⟩, [9]) :=
  c10_encode_uncapped_roundtrip.2.2.2 ⟨1, [104, 105], [7]⟩ [9]
    (by decide) (by decide) (by decide)

end TokenGo
